import Mathlib

/-!
Shallow embedding of the dedupy duplicate-file finder.

The repository holds two revisions of the same small core:
* `src/dedupy.py` (newest): `add_file_to_size_map`, `process_directory`,
  `process_items`, `group_files_by_size`, `hash_list_of_files`,
  `remove_non_duplicates`, `hash_file_list`, `print_file_clusters`
  and the `__main__` glue.
* `src/src/dedupy.py` (older): the chained refinement engine
  `group_files_by_hash_function` together with its own
  `hash_list_of_files`.

The filesystem is an abstract parameter: `stat`, existence, directory
trees for `os.walk`, and an open/read outcome per path.  File contents
are byte lists; digest algorithms are an abstract function from
algorithm name and content bytes to a hex string.  Python dicts are
insertion-ordered association lists; `collections.Counter` is a total
function with default 0.  Python exceptions that a function can raise
are modelled with `Except`.
-/

/-- Result of `os.stat`: device id, inode number and size in bytes. -/
structure Stat where
  st_dev : Nat
  st_ino : Nat
  st_size : Nat
deriving DecidableEq, Repr

mutual

/-- A directory tree as enumerated by `os.walk`: the file names in the
directory, and the named subdirectories in listing order. -/
inductive DirTree where
  | node : List String → DirForest → DirTree

/-- The ordered list of named subdirectories of a directory. -/
inductive DirForest where
  | nil : DirForest
  | cons : String → DirTree → DirForest → DirForest

end

/-- Outcome of `open(filename, "rb")` followed by `.read()`:
`openFail` models `PermissionError`/`FileNotFoundError` raised by
`open`; `readFail` models an `OSError` raised by `.read()` after a
successful open; `content` is a successful whole-file read. -/
inductive OpenResult where
  | openFail : OpenResult
  | readFail : OpenResult
  | content : List Nat → OpenResult
deriving DecidableEq, Repr

/-- The ambient filesystem: all OS calls the program makes. -/
structure FileSystem where
  stat : String → Option Stat
  pathExists : String → Bool
  isdir : String → Bool
  tree : String → DirTree
  realpath : String → String
  openRead : String → OpenResult

/-- A family of digest algorithms: from algorithm name and content
bytes to the hex digest string. -/
abbrev Digest := String → List Nat → String

/-- Python exceptions that escape the modelled functions. -/
inductive PyError where
  | valueError : String → PyError
  | osError : String → PyError
  | indexError : PyError
  | nameError : String → PyError
deriving DecidableEq, Repr

/-- The algorithm names accepted by `hashlib.new` in the model: the
guaranteed algorithms of Python's `hashlib`. -/
def algorithms_guaranteed : List String :=
  ["md5", "sha1", "sha224", "sha256", "sha384", "sha512",
   "sha3_224", "sha3_256", "sha3_384", "sha3_512",
   "shake_128", "shake_256", "blake2b", "blake2s"]

/-- A `hashlib` hash object: its algorithm name and the chunks fed to
`update` so far, in order. -/
structure HashObj where
  name : String
  fed : List (List Nat)
deriving DecidableEq, Repr

/-- `hash_obj.update(data)`: append one chunk to the running state. -/
def HashObj.update (h : HashObj) (data : List Nat) : HashObj :=
  { h with fed := h.fed ++ [data] }

/-- `hash_obj.hexdigest()`: the digest of everything fed so far. -/
def HashObj.hexdigest (dg : Digest) (h : HashObj) : String :=
  dg h.name h.fed.flatten

/-- `hashlib.new(name)`: a fresh hash object, or `none` for the
`ValueError` raised on an unknown algorithm name. -/
def hashlib_new (name : String) : Option HashObj :=
  if name ∈ algorithms_guaranteed then some ⟨name, []⟩ else none

/-- `os.path.join` for the paths built during the walk. -/
def joinPath (a b : String) : String := a ++ "/" ++ b

/-- Python's `name.startswith('.')`: the hidden-entry test used by
`process_directory`. -/
def startsWithDot (s : String) : Bool :=
  match s.data with
  | [] => false
  | c :: _ => c = '.'

/-- Insertion-ordered dict: `d.setdefault(k, []).append(v)`. -/
def setdefaultAppend {K : Type} [DecidableEq K] (m : List (K × List String))
    (k : K) (v : String) : List (K × List String) :=
  match m with
  | [] => [(k, [v])]
  | (k', vs) :: rest =>
    if k' = k then (k', vs ++ [v]) :: rest
    else (k', vs) :: setdefaultAppend rest k v

/-- `d[k] = v` on an insertion-ordered dict: replace in place if the
key exists, otherwise append at the end. -/
def setItem {K V : Type} [DecidableEq K] (m : List (K × V)) (k : K) (v : V) :
    List (K × V) :=
  match m with
  | [] => [(k, v)]
  | (k', v') :: rest =>
    if k' = k then (k', v) :: rest
    else (k', v') :: setItem rest k v

/-- `d.update(new)` on insertion-ordered dicts. -/
def dictUpdate {K V : Type} [DecidableEq K] (m new : List (K × V)) :
    List (K × V) :=
  new.foldl (fun acc kv => setItem acc kv.1 kv.2) m

/-- All paths occurring in the value lists of a mapping. -/
def mapPaths {K : Type} (m : List (K × List String)) : List String :=
  (m.map Prod.snd).flatten

/-- State threaded through the size-grouping scan: the hard-link
`Counter` (keyed by `(st_dev, st_ino)`) and the size → paths dict. -/
structure ScanState where
  count : Nat × Nat → Nat
  sizeMap : List (Nat × List String)

/-- `add_file_to_size_map` of `src/dedupy.py`: stat the path (skipping
it on `PermissionError`/`FileNotFoundError`), and if its
`(st_dev, st_ino)` identity has count 0, count it and append the path
to the entry for its size unless it is zero-length and
`ignore_zero_len` is set. -/
def add_file_to_size_map (fs : FileSystem) (fullname : String)
    (st : ScanState) (ignore_zero_len : Bool) : ScanState :=
  match fs.stat fullname with
  | none => st
  | some stat_obj =>
    let file_id := (stat_obj.st_dev, stat_obj.st_ino)
    if st.count file_id = 0 then
      let count' := fun i => if i = file_id then st.count file_id + 1 else st.count i
      let file_size := stat_obj.st_size
      if ¬ (ignore_zero_len = true ∧ file_size = 0) then
        { count := count',
          sizeMap := setdefaultAppend st.sizeMap file_size fullname }
      else { st with count := count' }
    else st

/-- The loop body of `process_directory` over the files listed in one
directory: every file name starting with `'.'` is skipped, the rest
are size-mapped under `os.path.realpath(os.path.join(path, name))`. -/
def scan_files (fs : FileSystem) (izl : Bool) (path : String)
    (files : List String) (st : ScanState) : ScanState :=
  files.foldl
    (fun a fn =>
      if startsWithDot fn then a
      else add_file_to_size_map fs (fs.realpath (joinPath path fn)) a izl)
    st

/-- The descent of `os.walk` as driven by `process_directory`: the
subdirectories of `path` are visited in order, except that every name
starting with `'.'` is pruned (the source filters `dirs[:]` in place);
a visited subdirectory contributes its own files first and then its
own descent. -/
def process_forest (fs : FileSystem) (izl : Bool) :
    String → DirForest → ScanState → ScanState
  | _, .nil, st => st
  | path, .cons dname (.node files subdirs) rest, st =>
    if startsWithDot dname then process_forest fs izl path rest st
    else
      process_forest fs izl path rest
        (process_forest fs izl (joinPath path dname) subdirs
          (scan_files fs izl (joinPath path dname) files st))
termination_by structural path l st => l

/-- One whole `os.walk` from a root: the root's files, then the pruned
descent into its subdirectories. -/
def process_tree (fs : FileSystem) (izl : Bool) (path : String)
    (t : DirTree) (st : ScanState) : ScanState :=
  match t with
  | .node files subdirs =>
    process_forest fs izl path subdirs (scan_files fs izl path files st)

/-- `process_directory` of `src/dedupy.py`: walk `start_dir`, always
excluding dot-directories from descent and dot-files from mapping. -/
def process_directory (fs : FileSystem) (start_dir : String)
    (st : ScanState) (izl : Bool) : ScanState :=
  process_tree fs izl start_dir (fs.tree start_dir) st

/-- `process_items` of `src/dedupy.py`: for each existing item, recurse
into it if it is a directory, otherwise size-map it directly. -/
def process_items (fs : FileSystem) (items : List String)
    (st : ScanState) (izl : Bool) : ScanState :=
  items.foldl
    (fun a item =>
      if fs.pathExists item then
        if fs.isdir item then process_directory fs item a izl
        else add_file_to_size_map fs item a izl
      else a)
    st

/-- The scan state at program start: empty `Counter`, empty dict. -/
def initScan : ScanState := { count := fun _ => 0, sizeMap := [] }

/-- `group_files_by_size` of `src/dedupy.py`: run the scan over the
items with the default `ignore_zero_len = True` and return the
size → paths dict. -/
def group_files_by_size (fs : FileSystem) (items : List String) :
    List (Nat × List String) :=
  (process_items fs items initScan true).sizeMap

/-- `remove_non_duplicates`: keep exactly the entries whose value list
has more than one element. -/
def remove_non_duplicates {K : Type} (dic : List (K × List String)) :
    List (K × List String) :=
  dic.filter (fun kv => kv.2.length > 1)

/-- Loop body of `hash_list_of_files` (`src/dedupy.py`): per file,
`open` (a `PermissionError`/`FileNotFoundError` skips the file), then
`hashlib.new(hash_func_name)` (a `ValueError` on an unknown name
propagates), then `hash_obj.update(f.read())` (a read failure
propagates as an `OSError`), then record the path under its digest. -/
def hash_files_go (dg : Digest) (fs : FileSystem) (name : String) :
    List String → List (String × List String) →
    Except PyError (List (String × List String))
  | [], acc => .ok acc
  | fn :: rest, acc =>
    match fs.openRead fn with
    | .openFail => hash_files_go dg fs name rest acc
    | .readFail =>
      match hashlib_new name with
      | none => .error (.valueError name)
      | some _ => .error (.osError fn)
    | .content data =>
      match hashlib_new name with
      | none => .error (.valueError name)
      | some hash_obj =>
        hash_files_go dg fs name rest
          (setdefaultAppend acc ((hash_obj.update data).hexdigest dg) fn)

/-- `hash_list_of_files` of `src/dedupy.py`: group a list of files by
the digest of their whole contents under one algorithm. -/
def hash_list_of_files (dg : Digest) (fs : FileSystem)
    (list_of_filenames : List String) (hash_func_name : String) :
    Except PyError (List (String × List String)) :=
  hash_files_go dg fs hash_func_name list_of_filenames []

/-- `hash_file_list` of `src/dedupy.py`: hash with the FIRST algorithm
of `hash_list` only (an empty list raises `IndexError` on
`hash_list[0]`), then drop non-duplicate entries. -/
def hash_file_list (dg : Digest) (fs : FileSystem)
    (list_of_files : List String) (hash_list : List String) :
    Except PyError (List (String × List String)) :=
  match hash_list with
  | [] => .error .indexError
  | name :: _ =>
    match hash_list_of_files dg fs list_of_files name with
    | .error e => .error e
    | .ok out => .ok (remove_non_duplicates out)

/-- A reported cluster: representative size, digest, member paths. -/
abbrev Cluster := Nat × String × List String

/-- Body of `print_file_clusters` (`src/dedupy.py`) as the list of
clusters it prints: per size group, `hash_file_list` with the given
chain (the source hardcodes `["sha1"]` there) and one cluster per
surviving digest entry.  An exception from hashing propagates. -/
def print_file_clusters (dg : Digest) (fs : FileSystem)
    (chain : List String) :
    List (Nat × List String) → Except PyError (List Cluster)
  | [] => .ok []
  | (key, file_list) :: rest =>
    match hash_file_list dg fs file_list chain with
    | .error e => .error e
    | .ok out =>
      match print_file_clusters dg fs chain rest with
      | .error e => .error e
      | .ok cs => .ok (out.map (fun kv => (key, kv.1, kv.2)) ++ cs)

/-- The `__main__` pipeline of `src/dedupy.py`, with the digest chain
as a parameter exactly where the source passes `["sha1"]`:
size-group the items, drop non-duplicates, digest and report. -/
def run_pipeline (dg : Digest) (fs : FileSystem) (items : List String)
    (chain : List String) : Except PyError (List Cluster) :=
  print_file_clusters dg fs chain
    (remove_non_duplicates (group_files_by_size fs items))

/-- `__main__` of `src/dedupy.py` after argument parsing.  The parsed
flags `args.zero` (`-z`), `args.dot` (`-d`) and `args.verbose` (`-v`)
are taken as inputs; the source never reads `args.zero` or `args.dot`
after parsing, and `args.verbose` only toggles diagnostic printing, so
none of them reaches the computation. -/
def dedupy_main (dg : Digest) (fs : FileSystem)
    (args_zero args_dot args_verbose : Bool) (items : List String) :
    Except PyError (List Cluster) :=
  run_pipeline dg fs items ["sha1"]

/-- The sequence of chunks `hash_list_of_files` feeds to the digest
state for one file of content `data`: the source performs the single
call `hash_obj.update(f.read())`, so the whole content is one chunk. -/
def hash_file_update_chunks (hash_func_name : String) (data : List Nat) :
    List (List Nat) :=
  ((HashObj.mk hash_func_name []).update data).fed

/-- `hash_list_of_files` of the older revision `src/src/dedupy.py`:
`open(filename, "rb").read()` inside a `try` that absorbs only
`PermissionError`/`FileNotFoundError` (skipping the file); a mid-read
`OSError` propagates; `hashlib.new(hash_func_name)` runs after a
successful read and raises on an unknown name. -/
def hash_files_go_v1 (dg : Digest) (fs : FileSystem) (name : String) :
    List String → List (String × List String) →
    Except PyError (List (String × List String))
  | [], acc => .ok acc
  | fn :: rest, acc =>
    match fs.openRead fn with
    | .openFail => hash_files_go_v1 dg fs name rest acc
    | .readFail => .error (.osError fn)
    | .content data =>
      match hashlib_new name with
      | none => .error (.valueError name)
      | some hash_obj =>
        hash_files_go_v1 dg fs name rest
          (setdefaultAppend acc ((hash_obj.update data).hexdigest dg) fn)

/-- Entry point of the older revision's `hash_list_of_files`. -/
def hash_list_of_files_v1 (dg : Digest) (fs : FileSystem)
    (list_of_filenames : List String) (hash_func_name : String) :
    Except PyError (List (String × List String)) :=
  hash_files_go_v1 dg fs hash_func_name list_of_filenames []

/-- One stage of `group_files_by_hash_function`
(`src/src/dedupy.py`): for each value list of the current dict, group
it by the stage's algorithm, drop non-duplicates, and merge into
`out_dict` via `dict.update`. -/
def hash_stage (dg : Digest) (fs : FileSystem) (hash_name : String) :
    List (List String) → List (String × List String) →
    Except PyError (List (String × List String))
  | [], out_dict => .ok out_dict
  | file_list :: rest, out_dict =>
    match hash_list_of_files_v1 dg fs file_list hash_name with
    | .error e => .error e
    | .ok hash_dict =>
      hash_stage dg fs hash_name rest
        (dictUpdate out_dict (remove_non_duplicates hash_dict))

/-- The `for hash_name in hash_list` loop of
`group_files_by_hash_function`: each algorithm re-partitions the value
lists of the previous stage's surviving dict; the final `out_dict` is
returned.  With an empty `hash_list` the loop never runs and the
`return out_dict` line raises `NameError` (`out_dict` is unbound). -/
def gfbhf_loop (dg : Digest) (fs : FileSystem)
    (vals : List (List String)) :
    List String → Except PyError (List (String × List String))
  | [] => .error (.nameError "out_dict")
  | [hash_name] => hash_stage dg fs hash_name vals []
  | hash_name :: next :: rest =>
    match hash_stage dg fs hash_name vals [] with
    | .error e => .error e
    | .ok out_dict => gfbhf_loop dg fs (out_dict.map Prod.snd) (next :: rest)

/-- `group_files_by_hash_function` of `src/src/dedupy.py`: refine the
groups of `dic` by each algorithm of `hash_list` in order, discarding
non-duplicates after every stage. -/
def group_files_by_hash_function {K : Type} (dg : Digest)
    (fs : FileSystem) (dic : List (K × List String))
    (hash_list : List String) :
    Except PyError (List (String × List String)) :=
  gfbhf_loop dg fs (dic.map Prod.snd) hash_list


/-!  ### Helper lemmas about the dict operations -/

theorem mapPaths_nil {K : Type} : mapPaths ([] : List (K × List String)) = [] := rfl

theorem mapPaths_cons {K : Type} (kv : K × List String)
    (m : List (K × List String)) :
    mapPaths (kv :: m) = kv.2 ++ mapPaths m := by
  simp [mapPaths]

theorem mem_mapPaths {K : Type} (m : List (K × List String)) (f : String) :
    f ∈ mapPaths m ↔ ∃ kv ∈ m, f ∈ kv.2 := by
  simp only [mapPaths, List.mem_flatten, List.mem_map]
  constructor
  · rintro ⟨l, ⟨kv, hkv, rfl⟩, hfl⟩
    exact ⟨kv, hkv, hfl⟩
  · rintro ⟨kv, hkv, hfkv⟩
    exact ⟨kv.2, ⟨kv, hkv, rfl⟩, hfkv⟩

theorem mem_mapPaths_setdefaultAppend {K : Type} [DecidableEq K]
    (m : List (K × List String)) (k : K) (v f : String) :
    f ∈ mapPaths (setdefaultAppend m k v) ↔ f ∈ mapPaths m ∨ f = v := by
  induction m with
  | nil => simp [setdefaultAppend, mapPaths]
  | cons kv rest ih =>
    obtain ⟨k', vs⟩ := kv
    by_cases hk : k' = k
    · simp [setdefaultAppend, hk, mapPaths_cons]
      tauto
    · simp [setdefaultAppend, hk, mapPaths_cons, ih]
      tauto

theorem mem_remove_non_duplicates {K : Type} (dic : List (K × List String))
    (kv : K × List String) :
    kv ∈ remove_non_duplicates dic ↔ kv ∈ dic ∧ kv.2.length > 1 := by
  simp [remove_non_duplicates]

/-!  ### Invariant propagation through the size-grouping scan

Every mutation of the scan state goes through `add_file_to_size_map`,
so a predicate preserved by that single step is preserved by the whole
traversal. -/

theorem foldl_preserves {α : Type} {P : ScanState → Prop}
    (g : ScanState → α → ScanState)
    (hg : ∀ st x, P st → P (g st x)) :
    ∀ (l : List α) (st : ScanState), P st → P (l.foldl g st) := by
  intro l
  induction l with
  | nil => intro st h; exact h
  | cons x xs ih => intro st h; exact ih (g st x) (hg st x h)

theorem scan_files_preserves {P : ScanState → Prop} (fs : FileSystem)
    (izl : Bool)
    (hstep : ∀ st n, P st → P (add_file_to_size_map fs n st izl))
    (path : String) (files : List String) (st : ScanState) (h : P st) :
    P (scan_files fs izl path files st) := by
  apply foldl_preserves _ _ files st h
  intro a fn ha
  by_cases hfn : startsWithDot fn
  · simpa [hfn] using ha
  · simpa [hfn] using hstep a (fs.realpath (joinPath path fn)) ha

theorem process_forest_preserves {P : ScanState → Prop} (fs : FileSystem)
    (izl : Bool)
    (hstep : ∀ st n, P st → P (add_file_to_size_map fs n st izl)) :
    ∀ (path : String) (l : DirForest) (st : ScanState),
      P st → P (process_forest fs izl path l st)
  | _, .nil, _, h => by rwa [process_forest]
  | path, .cons dname (.node files subdirs) rest, st, h => by
    rw [process_forest]
    by_cases hd : startsWithDot dname
    · simp only [hd, if_true]
      exact process_forest_preserves fs izl hstep path rest st h
    · simp only [hd, if_false]
      exact process_forest_preserves fs izl hstep path rest _
        (process_forest_preserves fs izl hstep (joinPath path dname) subdirs _
          (scan_files_preserves fs izl hstep (joinPath path dname) files st h))

theorem process_tree_preserves {P : ScanState → Prop} (fs : FileSystem)
    (izl : Bool)
    (hstep : ∀ st n, P st → P (add_file_to_size_map fs n st izl))
    (path : String) (t : DirTree) (st : ScanState) (h : P st) :
    P (process_tree fs izl path t st) := by
  match t with
  | .node files subdirs =>
    rw [process_tree]
    exact process_forest_preserves fs izl hstep path subdirs _
      (scan_files_preserves fs izl hstep path files st h)

theorem process_items_preserves {P : ScanState → Prop} (fs : FileSystem)
    (izl : Bool)
    (hstep : ∀ st n, P st → P (add_file_to_size_map fs n st izl))
    (items : List String) (st : ScanState) (h : P st) :
    P (process_items fs items st izl) := by
  apply foldl_preserves _ _ items st h
  intro a item ha
  by_cases he : fs.pathExists item
  · by_cases hd : fs.isdir item
    · simpa [he, hd] using
        process_tree_preserves fs izl hstep item (fs.tree item) a ha
    · simpa [he, hd] using hstep a item ha
  · simpa [he] using ha
/-!  ### The hard-link invariant (claim C2) -/

/-- Invariant of the scan state: every mapped path has a successful
stat whose `(st_dev, st_ino)` identity is already counted, and no two
distinct mapped paths share an identity. -/
def HardLinkInv (fs : FileSystem) (st : ScanState) : Prop :=
  (∀ p ∈ mapPaths st.sizeMap,
     ∃ s, fs.stat p = some s ∧ 1 ≤ st.count (s.st_dev, s.st_ino)) ∧
  (∀ p q, p ∈ mapPaths st.sizeMap → q ∈ mapPaths st.sizeMap → p ≠ q →
     ∀ sp sq, fs.stat p = some sp → fs.stat q = some sq →
       (sp.st_dev, sp.st_ino) ≠ (sq.st_dev, sq.st_ino))

theorem hardLinkInv_init (fs : FileSystem) : HardLinkInv fs initScan := by
  constructor
  · intro p hp
    simp [initScan, mapPaths] at hp
  · intro p q hp
    simp [initScan, mapPaths] at hp

theorem add_preserves_hardLinkInv (fs : FileSystem) (izl : Bool)
    (st : ScanState) (n : String) (h : HardLinkInv fs st) :
    HardLinkInv fs (add_file_to_size_map fs n st izl) := by
  obtain ⟨h1, h2⟩ := h
  cases hstat : fs.stat n with
  | none => simpa [add_file_to_size_map, hstat] using ⟨h1, h2⟩
  | some s =>
    by_cases hc : st.count (s.st_dev, s.st_ino) = 0
    · by_cases hz : izl = true ∧ s.st_size = 0
      · -- zero-length skip: the counter is bumped, the map unchanged
        simp only [add_file_to_size_map, hstat, hc, if_pos, hz, not_true_eq_false,
          if_neg, if_true, not_not, if_false]
        constructor
        · intro p hp
          obtain ⟨sp, hsp, hge⟩ := h1 p hp
          refine ⟨sp, hsp, ?_⟩
          by_cases hid : (sp.st_dev, sp.st_ino) = (s.st_dev, s.st_ino) <;>
            simp [hid] <;> omega
        · exact h2
      · -- the path is appended under its size
        simp only [add_file_to_size_map, hstat, hc, if_pos, hz, not_false_eq_true,
          if_true]
        constructor
        · intro p hp
          rw [mem_mapPaths_setdefaultAppend] at hp
          rcases hp with hp | rfl
          · obtain ⟨sp, hsp, hge⟩ := h1 p hp
            refine ⟨sp, hsp, ?_⟩
            by_cases hid : (sp.st_dev, sp.st_ino) = (s.st_dev, s.st_ino) <;>
              simp [hid] <;> omega
          · exact ⟨s, hstat, by simp⟩
        · intro p q hp hq hpq sp sq hsp hsq
          rw [mem_mapPaths_setdefaultAppend] at hp hq
          rcases hp with hp | rfl <;> rcases hq with hq | rfl
          · exact h2 p q hp hq hpq sp sq hsp hsq
          · -- q is the new path: its identity was uncounted, p's is counted
            obtain ⟨sp', hsp', hge⟩ := h1 p hp
            rw [hsp'] at hsp
            injection hsp with hsp
            subst hsp
            rw [hstat] at hsq
            injection hsq with hsq
            subst hsq
            intro hee
            rw [hee] at hge
            omega
          · obtain ⟨sq', hsq', hge⟩ := h1 q hq
            rw [hsq'] at hsq
            injection hsq with hsq
            subst hsq
            rw [hstat] at hsp
            injection hsp with hsp
            subst hsp
            intro hee
            rw [← hee] at hge
            omega
          · exact absurd rfl hpq
    · simpa [add_file_to_size_map, hstat, hc] using ⟨h1, h2⟩

theorem scan_hardLinkInv (fs : FileSystem) (items : List String) :
    HardLinkInv fs (process_items fs items initScan true) :=
  process_items_preserves fs true
    (fun st n hP => add_preserves_hardLinkInv fs true st n hP)
    items initScan (hardLinkInv_init fs)
/-!  ### Facts about the digest stage of `src/dedupy.py` -/

theorem hash_files_go_sub (dg : Digest) (fs : FileSystem) (name : String) :
    ∀ (files : List String) (acc m : List (String × List String)),
      hash_files_go dg fs name files acc = .ok m →
      ∀ f ∈ mapPaths m, f ∈ mapPaths acc ∨ f ∈ files := by
  intro files
  induction files with
  | nil =>
    intro acc m h f hf
    rw [hash_files_go] at h
    injection h with h
    subst h
    exact .inl hf
  | cons fn rest ih =>
    intro acc m h f hf
    rw [hash_files_go] at h
    cases ho : fs.openRead fn <;> simp only [ho] at h
    · rcases ih acc m h f hf with h1 | h1
      · exact .inl h1
      · exact .inr (List.mem_cons_of_mem fn h1)
    · cases hn : hashlib_new name <;> simp only [hn] at h <;>
        exact absurd h (by simp)
    · cases hn : hashlib_new name <;> simp only [hn] at h
      · exact absurd h (by simp)
      · rcases ih _ m h f hf with h1 | h1
        · rw [mem_mapPaths_setdefaultAppend] at h1
          rcases h1 with h1 | h1
          · exact .inl h1
          · refine .inr ?_
            rw [h1]
            exact List.mem_cons_self fn rest
        · exact .inr (List.mem_cons_of_mem fn h1)

theorem hash_file_list_ok (dg : Digest) (fs : FileSystem)
    (files chain : List String) (m : List (String × List String))
    (h : hash_file_list dg fs files chain = .ok m) :
    (∀ kv ∈ m, kv.2.length > 1) ∧ (∀ f ∈ mapPaths m, f ∈ files) := by
  match chain with
  | [] => simp [hash_file_list] at h
  | name :: restc =>
    rw [hash_file_list] at h
    cases ho : hash_list_of_files dg fs files name <;> rw [ho] at h
    · exact absurd h (by simp)
    · injection h with h
      subst h
      constructor
      · intro kv hkv
        exact ((mem_remove_non_duplicates _ kv).mp hkv).2
      · intro f hf
        rw [mem_mapPaths] at hf
        obtain ⟨kv, hkv, hfkv⟩ := hf
        have hkv' := ((mem_remove_non_duplicates _ kv).mp hkv).1
        have hfm : f ∈ mapPaths _ := (mem_mapPaths _ f).mpr ⟨kv, hkv', hfkv⟩
        rcases hash_files_go_sub dg fs name files [] _ ho f hfm with h1 | h1
        · simp [mapPaths] at h1
        · exact h1

theorem print_file_clusters_mem (dg : Digest) (fs : FileSystem)
    (chain : List String) :
    ∀ (dic : List (Nat × List String)) (cs : List Cluster),
      print_file_clusters dg fs chain dic = .ok cs →
      ∀ c ∈ cs, ∃ fl m, (c.1, fl) ∈ dic ∧
        hash_file_list dg fs fl chain = .ok m ∧ (c.2.1, c.2.2) ∈ m := by
  intro dic
  induction dic with
  | nil =>
    intro cs h c hc
    rw [print_file_clusters] at h
    injection h with h
    subst h
    simp at hc
  | cons e rest ih =>
    obtain ⟨key, fl0⟩ := e
    intro cs h c hc
    rw [print_file_clusters] at h
    cases ho : hash_file_list dg fs fl0 chain <;> rw [ho] at h
    · exact absurd h (by simp)
    · cases hrec : print_file_clusters dg fs chain rest <;> rw [hrec] at h
      · exact absurd h (by simp)
      · injection h with h
        subst h
        rcases List.mem_append.mp hc with h1 | h1
        · obtain ⟨kv, hkv, hckv⟩ := List.mem_map.mp h1
          refine ⟨fl0, _, ?_, ho, ?_⟩
          · rw [← hckv]
            exact List.mem_cons_self _ _
          · rw [← hckv]
            exact hkv
        · obtain ⟨fl, m, hmem, hok, hkv⟩ := ih _ hrec c h1
          exact ⟨fl, m, List.mem_cons_of_mem _ hmem, hok, hkv⟩
/-!  ### The zero-length policy invariant (claim C9) -/

theorem add_true_preserves_no_zero (fs : FileSystem) (st : ScanState)
    (n : String)
    (h : ∀ p ∈ mapPaths st.sizeMap, ∃ s, fs.stat p = some s ∧ s.st_size ≠ 0) :
    ∀ p ∈ mapPaths (add_file_to_size_map fs n st true).sizeMap,
      ∃ s, fs.stat p = some s ∧ s.st_size ≠ 0 := by
  cases hstat : fs.stat n with
  | none => simpa [add_file_to_size_map, hstat] using h
  | some s =>
    by_cases hc : st.count (s.st_dev, s.st_ino) = 0
    · by_cases hz : s.st_size = 0
      · simpa [add_file_to_size_map, hstat, hc, hz] using h
      · simp only [add_file_to_size_map, hstat, hc, hz, if_pos, if_true,
          and_false, not_false_eq_true, and_true, true_and]
        intro p hp
        rw [mem_mapPaths_setdefaultAppend] at hp
        rcases hp with hp | hp
        · exact h p hp
        · rw [hp]
          exact ⟨s, hstat, hz⟩
    · simpa [add_file_to_size_map, hstat, hc] using h

theorem scan_no_zero (fs : FileSystem) (items : List String) :
    ∀ p ∈ mapPaths (group_files_by_size fs items),
      ∃ s, fs.stat p = some s ∧ s.st_size ≠ 0 := by
  have := process_items_preserves (P := fun st =>
      ∀ p ∈ mapPaths st.sizeMap, ∃ s, fs.stat p = some s ∧ s.st_size ≠ 0)
    fs true (fun st n hP => add_true_preserves_no_zero fs st n hP)
    items initScan (by intro p hp; simp [initScan, mapPaths] at hp)
  exact this

/-!  ### Concrete digest family and filesystems used as witnesses -/

/-- A concrete digest family for witnesses: digests its input length. -/
def dgLen : Digest := fun name data => name ++ "-" ++ toString data.length

/-- Two distinct files of the same size and content. -/
def fsDup : FileSystem :=
  { stat := fun p =>
      if p = "a" then some ⟨1, 1, 5⟩
      else if p = "b" then some ⟨1, 2, 5⟩ else none,
    pathExists := fun p => decide (p = "a" ∨ p = "b"),
    isdir := fun _ => false,
    tree := fun _ => .node [] .nil,
    realpath := fun p => p,
    openRead := fun _ => .content [1, 2, 3, 4, 5] }

/-- Two paths that are hard links to one physical file. -/
def fsLink : FileSystem :=
  { stat := fun p => if p = "a" ∨ p = "b" then some ⟨1, 7, 5⟩ else none,
    pathExists := fun p => decide (p = "a" ∨ p = "b"),
    isdir := fun _ => false,
    tree := fun _ => .node [] .nil,
    realpath := fun p => p,
    openRead := fun _ => .content [1, 2, 3, 4, 5] }

/-- One zero-length file. -/
def fsZero : FileSystem :=
  { stat := fun p => if p = "z" then some ⟨1, 1, 0⟩ else none,
    pathExists := fun p => decide (p = "z"),
    isdir := fun _ => false,
    tree := fun _ => .node [] .nil,
    realpath := fun p => p,
    openRead := fun _ => .content [] }

/-- One hidden regular file passed as a top-level item. -/
def fsHidden : FileSystem :=
  { stat := fun p => if p = ".hidden" then some ⟨1, 1, 3⟩ else none,
    pathExists := fun p => decide (p = ".hidden"),
    isdir := fun _ => false,
    tree := fun _ => .node [] .nil,
    realpath := fun p => p,
    openRead := fun _ => .content [1, 2, 3] }

/-!  ### Claim theorems -/

/-- C4: the singleton filter `remove_non_duplicates` returns exactly
the entries of the input mapping whose value sequence has length
greater than 1; keys, value sequences and their order are unchanged
(the result is a sublist of the input), and it is a pure function of
its argument. -/
theorem C4_singleton_filter {K : Type} (dic : List (K × List String)) :
    (∀ kv, kv ∈ remove_non_duplicates dic ↔ kv ∈ dic ∧ kv.2.length > 1) ∧
    List.Sublist (remove_non_duplicates dic) dic :=
  ⟨fun kv => mem_remove_non_duplicates dic kv, List.filter_sublist dic⟩

/-- C3: every cluster in the final reported output of the pipeline
contains at least 2 file paths, for every filesystem, digest family,
input item list and algorithm chain. -/
theorem C3_clusters_have_at_least_two_members (dg : Digest)
    (fs : FileSystem) (items chain : List String) (cs : List Cluster)
    (h : run_pipeline dg fs items chain = .ok cs) :
    ∀ c ∈ cs, 2 ≤ c.2.2.length := by
  intro c hc
  have h' : print_file_clusters dg fs chain
      (remove_non_duplicates (group_files_by_size fs items)) = .ok cs := h
  obtain ⟨fl, m, hmem, hok, hkv⟩ :=
    print_file_clusters_mem dg fs chain _ cs h' c hc
  have := (hash_file_list_ok dg fs fl chain m hok).1 _ hkv
  simpa using this

/-- Witness for C3 at a concrete input: two equal 5-byte files form
one reported cluster with two members. -/
theorem C3_witness :
    2 ≤ ((5, dgLen "sha1" [1, 2, 3, 4, 5], ["a", "b"]) : Cluster).2.2.length :=
  C3_clusters_have_at_least_two_members dgLen fsDup ["a", "b"] ["sha1"]
    [(5, dgLen "sha1" [1, 2, 3, 4, 5], ["a", "b"])] rfl
    (5, dgLen "sha1" [1, 2, 3, 4, 5], ["a", "b"]) (by decide)

/-- C5 counterexample: the digester of `src/dedupy.py` does not read
in fixed-size chunks — it feeds the whole file content as a single
`update` chunk (`hash_obj.update(f.read())`), so no fixed bound covers
the chunk sizes: a file of `bound + 1` bytes is fed as one chunk of
`bound + 1` bytes. -/
theorem C5_counterexample :
    hash_file_update_chunks "sha1" [7, 7] = [[7, 7]] ∧
    ¬ ∃ bound : Nat, ∀ (data : List Nat),
        ∀ ch ∈ hash_file_update_chunks "sha1" data, ch.length ≤ bound := by
  constructor
  · rfl
  · rintro ⟨bound, h⟩
    have hm : List.replicate (bound + 1) 0 ∈
        hash_file_update_chunks "sha1" (List.replicate (bound + 1) 0) := by
      simp [hash_file_update_chunks, HashObj.update]
    have h2 := h (List.replicate (bound + 1) 0) (List.replicate (bound + 1) 0) hm
    simp [List.length_replicate] at h2

/-- C5 amended: for every file it digests, the content digester reads
the entire content and feeds it into the digest state as one single
chunk (the whole file at once), and the resulting digest is the
algorithm's digest of the full content. -/
theorem C5_amended_single_whole_chunk : ∀ (name : String) (data : List Nat),
    hash_file_update_chunks name data = [data] ∧
    ∀ dg : Digest,
      HashObj.hexdigest dg ((HashObj.mk name []).update data) = dg name data := by
  intro name data
  refine ⟨rfl, ?_⟩
  intro dg
  simp [HashObj.hexdigest, HashObj.update]

/-- C9: with the default configuration a file whose stat reports size
0 never enters any size group and therefore appears in no reported
cluster; with the `ignore_zero_len` flag disabled, a first-seen
zero-length file is admitted into the size map. -/
theorem C9_zero_length_policy (dg : Digest) (fs : FileSystem)
    (items chain : List String) (cs : List Cluster) (p : String) (s : Stat)
    (hstat : fs.stat p = some s) (hz : s.st_size = 0) :
    p ∉ mapPaths (group_files_by_size fs items) ∧
    (run_pipeline dg fs items chain = .ok cs → ∀ c ∈ cs, p ∉ c.2.2) ∧
    (∀ st : ScanState, st.count (s.st_dev, s.st_ino) = 0 →
       p ∈ mapPaths (add_file_to_size_map fs p st false).sizeMap) := by
  have hnom : p ∉ mapPaths (group_files_by_size fs items) := by
    intro hmem
    obtain ⟨s', hs', hnz⟩ := scan_no_zero fs items p hmem
    rw [hstat] at hs'
    injection hs' with hs'
    rw [← hs'] at hnz
    exact hnz hz
  refine ⟨hnom, ?_, ?_⟩
  · intro hok c hc hpc
    have h' : print_file_clusters dg fs chain
        (remove_non_duplicates (group_files_by_size fs items)) = .ok cs := hok
    obtain ⟨fl, m, hmem, hok2, hkv⟩ :=
      print_file_clusters_mem dg fs chain _ cs h' c hc
    have hfl : p ∈ fl :=
      (hash_file_list_ok dg fs fl chain m hok2).2 p
        ((mem_mapPaths m p).mpr ⟨(c.2.1, c.2.2), hkv, hpc⟩)
    have hgm : (c.1, fl) ∈ group_files_by_size fs items :=
      ((mem_remove_non_duplicates _ _).mp hmem).1
    exact hnom ((mem_mapPaths _ p).mpr ⟨(c.1, fl), hgm, hfl⟩)
  · intro st hc
    simp [add_file_to_size_map, hstat, hc, mem_mapPaths_setdefaultAppend]

/-- Witness for C9: a zero-length file is absent from the default size
grouping but admitted once `ignore_zero_len` is false. -/
theorem C9_witness :
    "z" ∉ mapPaths (group_files_by_size fsZero ["z"]) ∧
    "z" ∈ mapPaths (add_file_to_size_map fsZero "z" initScan false).sizeMap := by
  obtain ⟨h1, _, h3⟩ :=
    C9_zero_length_policy dgLen fsZero ["z"] ["sha1"] [] "z" ⟨1, 1, 0⟩ rfl rfl
  exact ⟨h1, h3 initScan rfl⟩

/-- C2: for two distinct paths that stat to the same physical identity
`(st_dev, st_ino)`, an observation finding the identity already
counted leaves the size map unchanged (the path is skipped), and the
two paths never both appear in the size groups of a scan. -/
theorem C2_hard_link_single_entry (fs : FileSystem) (items : List String)
    (p1 p2 : String) (s1 s2 : Stat) (hne : p1 ≠ p2)
    (h1 : fs.stat p1 = some s1) (h2 : fs.stat p2 = some s2)
    (hid : (s1.st_dev, s1.st_ino) = (s2.st_dev, s2.st_ino)) :
    (∀ (st : ScanState) (izl : Bool), 1 ≤ st.count (s2.st_dev, s2.st_ino) →
       (add_file_to_size_map fs p2 st izl).sizeMap = st.sizeMap) ∧
    ¬ (p1 ∈ mapPaths (group_files_by_size fs items) ∧
       p2 ∈ mapPaths (group_files_by_size fs items)) := by
  constructor
  · intro st izl hge
    have hcc : ¬ st.count (s2.st_dev, s2.st_ino) = 0 := by omega
    simp [add_file_to_size_map, h2, hcc]
  · rintro ⟨hp1, hp2⟩
    have hinv := scan_hardLinkInv fs items
    exact hinv.2 p1 p2 hp1 hp2 hne s1 s2 h1 h2 hid

/-- Witness for C2: two names of one inode scanned together — the
second never joins the size groups alongside the first. -/
theorem C2_witness :
    ¬ ("a" ∈ mapPaths (group_files_by_size fsLink ["a", "b"]) ∧
       "b" ∈ mapPaths (group_files_by_size fsLink ["a", "b"])) :=
  (C2_hard_link_single_entry fsLink ["a", "b"] "a" "b" ⟨1, 7, 5⟩ ⟨1, 7, 5⟩
    (by decide) rfl rfl rfl).2

/-- C10: the hidden-entry exclusion lives only in the directory walk:
a top-level non-directory item is handed straight to
`add_file_to_size_map` with no check of its name, and an existing
hidden regular file passed as an item enters the size grouping like
any other file. -/
theorem C10_toplevel_hidden_file_admitted (fs : FileSystem) (izl : Bool)
    (item : String) (rest : List String) (st : ScanState)
    (hex : fs.pathExists item = true) (hdir : fs.isdir item = false) :
    (process_items fs (item :: rest) st izl =
       process_items fs rest (add_file_to_size_map fs item st izl) izl) ∧
    (∀ s : Stat, fs.stat item = some s → s.st_size ≠ 0 →
       startsWithDot item = true →
       item ∈ mapPaths (group_files_by_size fs [item])) := by
  constructor
  · simp [process_items, hex, hdir]
  · intro s hstat hsz _
    simp [group_files_by_size, process_items, hex, hdir, add_file_to_size_map,
      hstat, initScan, hsz, mem_mapPaths_setdefaultAppend]

/-- Witness for C10: the hidden file `.hidden` passed as an item is
admitted into the size grouping. -/
theorem C10_witness :
    ".hidden" ∈ mapPaths (group_files_by_size fsHidden [".hidden"]) :=
  (C10_toplevel_hidden_file_admitted fsHidden true ".hidden" [] initScan
    rfl rfl).2 ⟨1, 1, 3⟩ rfl (by decide) (by decide)

/-!  ### Error behaviour of the digest stage (claims C6 and C7) -/

theorem hash_files_go_all_openFail (dg : Digest) (fs : FileSystem)
    (name : String) :
    ∀ (files : List String) (acc : List (String × List String)),
      (∀ f ∈ files, fs.openRead f = .openFail) →
      hash_files_go dg fs name files acc = .ok acc := by
  intro files
  induction files with
  | nil => intro acc _; rw [hash_files_go]
  | cons fn rest ih =>
    intro acc h
    rw [hash_files_go]
    rw [h fn (List.mem_cons_self fn rest)]
    exact ih acc (fun f hf => h f (List.mem_cons_of_mem fn hf))

theorem hash_files_go_unknown_err (dg : Digest) (fs : FileSystem)
    (name : String) (hun : hashlib_new name = none) :
    ∀ (files : List String) (acc : List (String × List String)) (f : String),
      f ∈ files → fs.openRead f ≠ .openFail →
      hash_files_go dg fs name files acc = .error (.valueError name) := by
  intro files
  induction files with
  | nil => intro acc f hf; simp at hf
  | cons fn rest ih =>
    intro acc f hf hnf
    rw [hash_files_go]
    cases ho : fs.openRead fn
    · rcases List.mem_cons.mp hf with h | hf'
      · rw [h] at hnf
        exact absurd ho hnf
      · exact ih acc f hf' hnf
    · rw [hun]
    · rw [hun]

theorem hash_files_go_no_readFail (dg : Digest) (fs : FileSystem)
    (name : String) (hv : name ∈ algorithms_guaranteed) :
    ∀ (files : List String) (acc : List (String × List String)),
      (∀ f ∈ files, fs.openRead f ≠ .readFail) →
      (∀ f ∈ mapPaths acc, ∃ d, fs.openRead f = .content d) →
      ∃ m, hash_files_go dg fs name files acc = .ok m ∧
        ∀ f ∈ mapPaths m, ∃ d, fs.openRead f = .content d := by
  have hsome : hashlib_new name = some ⟨name, []⟩ := by simp [hashlib_new, hv]
  intro files
  induction files with
  | nil =>
    intro acc _ hacc
    exact ⟨acc, by rw [hash_files_go], hacc⟩
  | cons fn rest ih =>
    intro acc hnr hacc
    rw [hash_files_go]
    cases ho : fs.openRead fn
    · exact ih acc (fun f hf => hnr f (List.mem_cons_of_mem fn hf)) hacc
    · exact absurd ho (hnr fn (List.mem_cons_self fn rest))
    · rw [hsome]
      apply ih _ (fun f hf => hnr f (List.mem_cons_of_mem fn hf))
      intro f hf
      rw [mem_mapPaths_setdefaultAppend] at hf
      rcases hf with hf | hf
      · exact hacc f hf
      · rw [hf]
        exact ⟨_, ho⟩

theorem hash_files_go_readFail_err (dg : Digest) (fs : FileSystem)
    (name : String) :
    ∀ (files : List String) (acc : List (String × List String)) (f : String),
      f ∈ files → fs.openRead f = .readFail →
      ∃ e, hash_files_go dg fs name files acc = .error e := by
  intro files
  induction files with
  | nil => intro acc f hf; simp at hf
  | cons fn rest ih =>
    intro acc f hf hrf
    rw [hash_files_go]
    cases ho : fs.openRead fn
    · rcases List.mem_cons.mp hf with h | hf'
      · rw [h, ho] at hrf
        exact absurd hrf (by simp)
      · exact ih acc f hf' hrf
    · cases hn : hashlib_new name
      · exact ⟨.valueError name, rfl⟩
      · exact ⟨.osError fn, rfl⟩
    · cases hn : hashlib_new name
      · exact ⟨.valueError name, rfl⟩
      · rcases List.mem_cons.mp hf with h | hf'
        · rw [h, ho] at hrf
          exact absurd hrf (by simp)
        · exact ih _ f hf' hrf

theorem print_clusters_all_openFail (dg : Digest) (fs : FileSystem)
    (name : String) (restc : List String) :
    ∀ dic : List (Nat × List String),
      (∀ e ∈ dic, ∀ f ∈ e.2, fs.openRead f = .openFail) →
      print_file_clusters dg fs (name :: restc) dic = .ok [] := by
  intro dic
  induction dic with
  | nil => intro _; rw [print_file_clusters]
  | cons e0 rest ih =>
    obtain ⟨key, fl⟩ := e0
    intro h
    rw [print_file_clusters]
    have hh : hash_file_list dg fs fl (name :: restc) = .ok [] := by
      rw [hash_file_list, hash_list_of_files,
        hash_files_go_all_openFail dg fs name fl []
          (fun f hf => h (key, fl) (List.mem_cons_self _ _) f hf)]
      rfl
    rw [hh, ih (fun e he f hf => h e (List.mem_cons_of_mem _ he) f hf)]
    rfl

theorem print_clusters_unknown_err (dg : Digest) (fs : FileSystem)
    (name : String) (restc : List String) (hun : hashlib_new name = none) :
    ∀ dic : List (Nat × List String),
      (∃ e ∈ dic, ∃ f ∈ e.2, fs.openRead f ≠ .openFail) →
      print_file_clusters dg fs (name :: restc) dic = .error (.valueError name) := by
  intro dic
  induction dic with
  | nil =>
    rintro ⟨e, he, _⟩
    simp at he
  | cons e0 rest ih =>
    obtain ⟨key, fl⟩ := e0
    rintro ⟨e, he, f, hf, hnf⟩
    rw [print_file_clusters]
    by_cases hhead : ∃ g ∈ fl, fs.openRead g ≠ .openFail
    · obtain ⟨g, hg, hng⟩ := hhead
      have hh : hash_file_list dg fs fl (name :: restc) =
          .error (.valueError name) := by
        rw [hash_file_list, hash_list_of_files,
          hash_files_go_unknown_err dg fs name hun fl [] g hg hng]
      rw [hh]
    · push_neg at hhead
      have hh : hash_file_list dg fs fl (name :: restc) = .ok [] := by
        rw [hash_file_list, hash_list_of_files,
          hash_files_go_all_openFail dg fs name fl [] hhead]
        rfl
      rw [hh]
      have hrest : ∃ e ∈ rest, ∃ f ∈ e.2, fs.openRead f ≠ .openFail := by
        rcases List.mem_cons.mp he with h | he'
        · rw [h] at hf
          exact absurd (hhead f hf) hnf
        · exact ⟨e, he', f, hf, hnf⟩
      rw [ih hrest]

/-- One regular file (no duplicate partner). -/
def fsSingle : FileSystem :=
  { stat := fun p => if p = "a" then some ⟨1, 1, 1⟩ else none,
    pathExists := fun p => decide (p = "a"),
    isdir := fun _ => false,
    tree := fun _ => .node [] .nil,
    realpath := fun p => p,
    openRead := fun _ => .content [9] }

/-- A file whose open succeeds but whose read fails. -/
def fsReadFail : FileSystem :=
  { stat := fun p => if p = "r" then some ⟨1, 1, 2⟩ else none,
    pathExists := fun p => decide (p = "r"),
    isdir := fun _ => false,
    tree := fun _ => .node [] .nil,
    realpath := fun p => p,
    openRead := fun p => if p = "r" then .readFail else .openFail }

/-- One readable file next to one that fails to open. -/
def fsMixed : FileSystem :=
  { stat := fun p => if p = "ok" ∨ p = "perm" then some ⟨1, 1, 1⟩ else none,
    pathExists := fun p => decide (p = "ok" ∨ p = "perm"),
    isdir := fun _ => false,
    tree := fun _ => .node [] .nil,
    realpath := fun p => p,
    openRead := fun p => if p = "ok" then .content [1] else .openFail }

/-- A directory holding exactly two identical hidden files. -/
def fsHiddenDir : FileSystem :=
  { stat := fun p =>
      if p = "d/.h1" then some ⟨1, 1, 5⟩
      else if p = "d/.h2" then some ⟨1, 2, 5⟩ else none,
    pathExists := fun p => decide (p = "d"),
    isdir := fun p => decide (p = "d"),
    tree := fun p =>
      if p = "d" then .node [".h1", ".h2"] .nil else .node [] .nil,
    realpath := fun p => p,
    openRead := fun _ => .content [1, 2, 3, 4, 5] }

/-- C6 counterexample: with an algorithm name that `hashlib` does not
know, the pipeline still performs the complete size-grouping scan (the
size map is fully populated) and, because the single file never
reaches the digest stage, terminates successfully — no configuration
error is ever raised, let alone before traversal. -/
theorem C6_counterexample :
    "nosuchalgo" ∉ algorithms_guaranteed ∧
    group_files_by_size fsSingle ["a"] = [(1, ["a"])] ∧
    run_pipeline dgLen fsSingle ["a"] ["nosuchalgo"] = .ok [] := by
  refine ⟨by decide, rfl, rfl⟩

/-- C6 amended: an unknown digest algorithm identifier is validated
lazily, inside the digest stage: the size-grouping scan always runs to
completion, and afterwards the run fails with the `ValueError` only if
some surviving group actually offers a file to `hashlib` (a file whose
open does not fail); if every surviving file fails to open — in
particular if no group survives — the unknown identifier goes
undetected and the run succeeds. -/
theorem C6_amended_lazy_algorithm_validation (dg : Digest)
    (fs : FileSystem) (items : List String) (name : String)
    (restc : List String) (hun : name ∉ algorithms_guaranteed) :
    ((∀ e ∈ remove_non_duplicates (group_files_by_size fs items),
        ∀ f ∈ e.2, fs.openRead f = .openFail) →
      run_pipeline dg fs items (name :: restc) = .ok []) ∧
    ((∃ e ∈ remove_non_duplicates (group_files_by_size fs items),
        ∃ f ∈ e.2, fs.openRead f ≠ .openFail) →
      run_pipeline dg fs items (name :: restc) = .error (.valueError name)) := by
  have hn : hashlib_new name = none := by simp [hashlib_new, hun]
  exact ⟨fun h => print_clusters_all_openFail dg fs name restc _ h,
         fun h => print_clusters_unknown_err dg fs name restc hn _ h⟩

/-- Witness for C6 amended: two same-size readable files and the
unknown name "nosuchalgo" — the scan completes and the run then aborts
inside the digest stage. -/
theorem C6_witness :
    run_pipeline dgLen fsDup ["a", "b"] ["nosuchalgo"] =
      .error (.valueError "nosuchalgo") :=
  (C6_amended_lazy_algorithm_validation dgLen fsDup ["a", "b"] "nosuchalgo" []
    (by decide)).2 (by decide)

/-- C7 counterexample: a file whose read fails after a successful open
aborts the digest run with an uncaught error instead of being excluded
— the source's `try` protects only the `open` call. -/
theorem C7_counterexample :
    hash_list_of_files dgLen fsReadFail ["r"] "sha1" = .error (.osError "r") :=
  rfl

/-- C7 amended: open failures (`PermissionError`/`FileNotFoundError`)
are absorbed locally — the file is excluded and, when no mid-read
failure occurs, the digest stage returns a grouping whose every member
was actually read; but a failure occurring mid-read, after a
successful open, raises an error that aborts the digest run. -/
theorem C7_amended_read_errors (dg : Digest) (fs : FileSystem)
    (name : String) (files : List String)
    (hv : name ∈ algorithms_guaranteed) :
    ((∀ f ∈ files, fs.openRead f ≠ .readFail) →
      ∃ m, hash_list_of_files dg fs files name = .ok m ∧
        ∀ f ∈ mapPaths m, ∃ d, fs.openRead f = .content d) ∧
    (∀ f ∈ files, fs.openRead f = .readFail →
      ∃ e, hash_list_of_files dg fs files name = .error e) := by
  constructor
  · intro h
    exact hash_files_go_no_readFail dg fs name hv files [] h
      (by intro f hf; simp [mapPaths] at hf)
  · intro f hf hrf
    exact hash_files_go_readFail_err dg fs name files [] f hf hrf

/-- Witness for C7 amended: one readable file and one whose open
fails — the digest stage succeeds, absorbing the open failure. -/
theorem C7_witness :
    (hash_list_of_files dgLen fsMixed ["ok", "perm"] "sha1").isOk = true := by
  obtain ⟨m, hm, _⟩ :=
    (C7_amended_read_errors dgLen fsMixed "sha1" ["ok", "perm"] (by decide)).1
      (by decide)
  rw [hm]
  rfl

/-- C8 (code bug): the `-d` (`--dot`) option is parsed but never read by
`__main__`, so the hidden-entry policy is not configurable: the main
pipeline returns the same result whatever the parsed flags, and with
the dot flag enabled a directory holding two identical hidden files
still produces no clusters — although the digest stage would report
exactly that pair had the traversal admitted the two files. -/
theorem C8_dot_flag_ignored :
    (∀ (dg : Digest) (fs : FileSystem) (z d v z' d' v' : Bool)
       (items : List String),
       dedupy_main dg fs z d v items = dedupy_main dg fs z' d' v' items) ∧
    dedupy_main dgLen fsHiddenDir false true false ["d"] = .ok [] ∧
    print_file_clusters dgLen fsHiddenDir ["sha1"] [(5, ["d/.h1", "d/.h2"])] =
      .ok [(5, dgLen "sha1" [1, 2, 3, 4, 5], ["d/.h1", "d/.h2"])] :=
  ⟨fun _ _ _ _ _ _ _ _ _ => rfl, rfl, rfl⟩

/-!  ### The chained refinement engine (claim C1) -/

theorem hash_stage_nil (dg : Digest) (fs : FileSystem) (hash_name : String)
    (out : List (String × List String)) :
    hash_stage dg fs hash_name [] out = .ok out := by
  rw [hash_stage.eq_def]

theorem hash_stage_cons (dg : Digest) (fs : FileSystem) (hash_name : String)
    (fl : List String) (rest : List (List String))
    (out : List (String × List String)) :
    hash_stage dg fs hash_name (fl :: rest) out =
      match hash_list_of_files_v1 dg fs fl hash_name with
      | .error e => .error e
      | .ok hd =>
        hash_stage dg fs hash_name rest
          (dictUpdate out (remove_non_duplicates hd)) := by
  rw [hash_stage.eq_def]

theorem gfbhf_loop_one (dg : Digest) (fs : FileSystem)
    (vals : List (List String)) (a : String) :
    gfbhf_loop dg fs vals [a] = hash_stage dg fs a vals [] := by
  rw [gfbhf_loop.eq_def]

theorem gfbhf_loop_more (dg : Digest) (fs : FileSystem)
    (vals : List (List String)) (a b : String) (restc : List String) :
    gfbhf_loop dg fs vals (a :: b :: restc) =
      match hash_stage dg fs a vals [] with
      | .error e => .error e
      | .ok out_dict =>
        gfbhf_loop dg fs (out_dict.map Prod.snd) (b :: restc) := by
  rw [gfbhf_loop.eq_def]

theorem hash_v1_two_same (dg : Digest) (fs : FileSystem) (a f1 f2 : String)
    (c1 c2 : List Nat) (ha : a ∈ algorithms_guaranteed)
    (h1 : fs.openRead f1 = .content c1) (h2 : fs.openRead f2 = .content c2)
    (hcol : dg a c1 = dg a c2) :
    hash_list_of_files_v1 dg fs [f1, f2] a = .ok [(dg a c1, [f1, f2])] := by
  have hsome : hashlib_new a = some ⟨a, []⟩ := by simp [hashlib_new, ha]
  simp [hash_list_of_files_v1, hash_files_go_v1, h1, h2, hsome,
    HashObj.hexdigest, HashObj.update, setdefaultAppend, ← hcol]

theorem hash_v1_two_diff (dg : Digest) (fs : FileSystem) (a f1 f2 : String)
    (c1 c2 : List Nat) (ha : a ∈ algorithms_guaranteed)
    (h1 : fs.openRead f1 = .content c1) (h2 : fs.openRead f2 = .content c2)
    (hne : dg a c1 ≠ dg a c2) :
    hash_list_of_files_v1 dg fs [f1, f2] a =
      .ok [(dg a c1, [f1]), (dg a c2, [f2])] := by
  have hsome : hashlib_new a = some ⟨a, []⟩ := by simp [hashlib_new, ha]
  simp [hash_list_of_files_v1, hash_files_go_v1, h1, h2, hsome,
    HashObj.hexdigest, HashObj.update, setdefaultAppend, hne]

/-- C1: the refinement engine `group_files_by_hash_function` applies
the algorithms of a non-empty chain in order, stage by stage — when
more algorithms remain after a stage, it recurses with the surviving
digest groups as the new input groups — and for a two-algorithm chain
over two files that collide under the first algorithm but differ under
the second, the final output holds zero clusters. -/
theorem C1_refinement_chain :
    (∀ (dg : Digest) (fs : FileSystem) (dic : List (Nat × List String))
       (a b : String) (restc : List String)
       (out : List (String × List String)),
       hash_stage dg fs a (dic.map Prod.snd) [] = .ok out →
       group_files_by_hash_function dg fs dic (a :: b :: restc) =
         group_files_by_hash_function dg fs out (b :: restc)) ∧
    (∀ (dg : Digest) (fs : FileSystem) (sz : Nat) (f1 f2 : String)
       (c1 c2 : List Nat) (a1 a2 : String),
       f1 ≠ f2 → fs.openRead f1 = .content c1 →
       fs.openRead f2 = .content c2 →
       a1 ∈ algorithms_guaranteed → a2 ∈ algorithms_guaranteed →
       dg a1 c1 = dg a1 c2 → dg a2 c1 ≠ dg a2 c2 →
       group_files_by_hash_function dg fs [(sz, [f1, f2])] [a1, a2] =
         .ok []) := by
  constructor
  · intro dg fs dic a b restc out hstage
    simp only [group_files_by_hash_function]
    rw [gfbhf_loop_more, hstage]
  · intro dg fs sz f1 f2 c1 c2 a1 a2 hne12 h1 h2 ha1 ha2 hcol hdiff
    have hstage1 : hash_stage dg fs a1 [[f1, f2]] [] =
        .ok [(dg a1 c1, [f1, f2])] := by
      rw [hash_stage_cons, hash_v1_two_same dg fs a1 f1 f2 c1 c2 ha1 h1 h2 hcol]
      simp [hash_stage_nil, remove_non_duplicates, dictUpdate, setItem]
    have hstage2 : hash_stage dg fs a2 [[f1, f2]] [] = .ok [] := by
      rw [hash_stage_cons, hash_v1_two_diff dg fs a2 f1 f2 c1 c2 ha2 h1 h2 hdiff]
      simp [hash_stage_nil, remove_non_duplicates, dictUpdate]
    calc group_files_by_hash_function dg fs [(sz, [f1, f2])] [a1, a2]
        = gfbhf_loop dg fs [[f1, f2]] [a1, a2] := rfl
      _ = gfbhf_loop dg fs [[f1, f2]] [a2] := by
            rw [gfbhf_loop_more, hstage1]
            rfl
      _ = .ok [] := by rw [gfbhf_loop_one]; exact hstage2

/-- A concrete digest family for the C1 witness: every input collides
under "md5", lengths distinguish under any other name. -/
def dgCollide : Digest := fun name data =>
  if name = "md5" then "x" else toString data.length

/-- Two readable files with different contents for the C1 witness. -/
def fsPair : FileSystem :=
  { stat := fun p =>
      if p = "f" then some ⟨1, 1, 1⟩
      else if p = "g" then some ⟨1, 2, 2⟩ else none,
    pathExists := fun p => decide (p = "f" ∨ p = "g"),
    isdir := fun _ => false,
    tree := fun _ => .node [] .nil,
    realpath := fun p => p,
    openRead := fun p => if p = "f" then .content [0] else .content [0, 0] }

/-- Witness for C1: a chain of "md5" then "sha1" over two files that
collide under the first algorithm and differ under the second —
the engine reports zero clusters. -/
theorem C1_witness :
    group_files_by_hash_function dgCollide fsPair [(1, ["f", "g"])]
      ["md5", "sha1"] = .ok [] :=
  C1_refinement_chain.2 dgCollide fsPair 1 "f" "g" [0] [0, 0] "md5" "sha1"
    (by decide) rfl rfl (by decide) (by decide) rfl (by decide)
